import Mathlib

/-
Verification of the in-memory vector store, math utilities, metadata
enrichment and RAG-mode configuration of the alqueria-rag-backend
repository, against its natural-language specification.

Shallow embedding conventions:
* Python floats are modelled as real numbers.
* A raised Python exception is modelled as Except.error; a function that
  Python lets raise returns a value in the Except monad.
* Python dicts (which preserve insertion order) are modelled as
  association lists with unique keys; dict assignment replaces the value
  in place, and new keys are appended at the end.
* Network calls (Azure embedding generation) are external: functions that
  consume a generated embedding take it as a parameter, with None
  modelled as Option.none.
-/

namespace AlqueriaRAG

/-- Errors raised by the embedded Python code. The names follow the
taxonomy of the specification: a ValueError complaining about vector
lengths is a dimensionMismatch, the ValueError raised for an
out-of-range RAG percentage is invalidConfiguration, and comparisons
between incompatible runtime types raise typeError. -/
inductive PyErr where
  | dimensionMismatch (len1 len2 : Nat)
  | valueError
  | typeError
  | invalidConfiguration (lo hi : Int)
  deriving DecidableEq, Repr

/-- Sum of pairwise products, modelling `sum(a * b for a, b in zip(vec1, vec2))`
from core/math_utils.py. -/
def dotList (vec1 vec2 : List ℝ) : ℝ :=
  (List.zipWith (fun a b => a * b) vec1 vec2).sum

/-- Sum of squares of the entries, modelling `sum(a * a for a in vec)`. -/
def sumSq (vec : List ℝ) : ℝ :=
  (vec.map (fun a => a * a)).sum

/-- Magnitude of a vector, modelling `math.sqrt(sum(a * a for a in vec))`. -/
noncomputable def magnitudeOf (vec : List ℝ) : ℝ :=
  Real.sqrt (sumSq vec)

/-- Embedding of `cosine_similarity` from core/math_utils.py.
The length guard raises ValueError mentioning the two lengths, the
zero-magnitude guard returns 0.0, and the result is clamped into
[-1.0, 1.0] via `max(-1.0, min(1.0, similarity))`. -/
noncomputable def cosine_similarity (vec1 vec2 : List ℝ) : Except PyErr ℝ :=
  if vec1.length ≠ vec2.length then
    .error (.dimensionMismatch vec1.length vec2.length)
  else
    let dot_product := dotList vec1 vec2
    let magnitude1 := magnitudeOf vec1
    let magnitude2 := magnitudeOf vec2
    if magnitude1 = 0 ∨ magnitude2 = 0 then
      .ok 0
    else
      .ok (max (-1) (min 1 (dot_product / (magnitude1 * magnitude2))))

/-- Total value of cosine similarity for equal-length vectors: the value
`cosine_similarity` returns when the length guard passes. -/
noncomputable def cosVal (vec1 vec2 : List ℝ) : ℝ :=
  if magnitudeOf vec1 = 0 ∨ magnitudeOf vec2 = 0 then 0
  else max (-1) (min 1 (dotList vec1 vec2 / (magnitudeOf vec1 * magnitudeOf vec2)))

/-- Runtime metadata values occurring in this program: strings, ints and
floats (floats modelled as rationals, which is exact for the values the
code manipulates). -/
inductive MValue where
  | vStr (s : String)
  | vInt (n : Int)
  | vFloat (q : ℚ)
  deriving DecidableEq, Repr

/-- Python equality between metadata values: strings compare by content,
numbers compare by numeric value across int/float, and a string never
equals a number. Equality never raises. -/
def pyEq : MValue → MValue → Bool
  | .vStr s, .vStr t => s == t
  | .vInt n, .vInt m => n == m
  | .vFloat p, .vFloat q => p == q
  | .vInt n, .vFloat q => ((n : ℚ)) == q
  | .vFloat q, .vInt n => q == ((n : ℚ))
  | _, _ => false

/-- Python strict < between metadata values: defined within strings and
within numbers (int/float mixed allowed); comparing a string with a
number raises TypeError. -/
def pyLt : MValue → MValue → Except PyErr Bool
  | .vStr s, .vStr t => .ok (decide (s < t))
  | .vInt n, .vInt m => .ok (decide (n < m))
  | .vFloat p, .vFloat q => .ok (decide (p < q))
  | .vInt n, .vFloat q => .ok (decide ((n : ℚ) < q))
  | .vFloat q, .vInt n => .ok (decide (q < (n : ℚ)))
  | _, _ => .error .typeError

/-- Python strict > is < with the arguments swapped. -/
def pyGt (a b : MValue) : Except PyErr Bool := pyLt b a

/-- Document chunk from core/azure_vector_store.py: id, content, embedding,
metadata and creation timestamp. -/
structure DocumentChunk where
  id : String
  content : String
  embedding : List ℝ
  metadata : List (String × MValue)
  created_at : String

/-- Values a metadata filter can associate to a key in
`_filter_by_metadata`: a scalar (exact match), a list (membership), or a
range object carrying optional gte/lte/in bounds. -/
inductive FValue where
  | scalar (v : MValue)
  | values (vs : List MValue)
  | range (gte lte : Option MValue) (inVals : Option (List MValue))

/-- Lookup in an association list modelling a Python dict
(`d[k]` / `k in d`), returning the value of the first matching key. -/
def dictGet {α : Type} : List (String × α) → String → Option α
  | [], _ => none
  | (k0, v0) :: rest, k => if k0 = k then some v0 else dictGet rest k

/-- Sequencing of one bound check inside the range branch of
`_filter_by_metadata`: a raised comparison propagates, a failed bound
breaks out of the loop with False (here: .ok false), and a passed bound
falls through to the next check. -/
def stepCheck (e : Except PyErr Bool) (next : Except PyErr Bool) :
    Except PyErr Bool :=
  match e with
  | .error err => .error err
  | .ok true => .ok false
  | .ok false => next

/-- Evaluation of one filter entry against a present metadata value,
modelling the per-key body of `_filter_by_metadata`: a range object
checks the present gte bound (fails if doc_value < gte), then the lte
bound (fails if doc_value > lte), then the in bound (membership); a list
checks membership; a scalar checks equality. Order comparisons can raise
TypeError, which propagates. -/
def matchesKey (dv : MValue) : FValue → Except PyErr Bool
  | .scalar v => .ok (pyEq dv v)
  | .values vs => .ok (vs.any (fun v => pyEq dv v))
  | .range gte lte inVals =>
    stepCheck (match gte with | some gv => pyLt dv gv | none => .ok false)
      (stepCheck (match lte with | some lv => pyGt dv lv | none => .ok false)
        (match inVals with
          | some vs => .ok (vs.any (fun v => pyEq dv v))
          | none => .ok true))

/-- Evaluation of a whole metadata filter against one chunk's metadata:
the loop of `_filter_by_metadata` over the filter entries, breaking with
False at the first absent key or failed constraint. -/
def metadataMatches (meta : List (String × MValue)) :
    List (String × FValue) → Except PyErr Bool
  | [] => .ok true
  | (k, fv) :: rest =>
    match dictGet meta k with
    | none => .ok false
    | some dv =>
      match matchesKey dv fv with
      | .error e => .error e
      | .ok true => metadataMatches meta rest
      | .ok false => .ok false

/-- Embedding of `_filter_by_metadata`: keeps, in order, the documents
whose metadata matches the filter. -/
def filterByMetadata :
    List (String × DocumentChunk) → List (String × FValue) →
    Except PyErr (List (String × DocumentChunk))
  | [], _ => .ok []
  | (did, doc) :: rest, f =>
    match metadataMatches doc.metadata f with
    | .error e => .error e
    | .ok b =>
      match filterByMetadata rest f with
      | .error e => .error e
      | .ok tail => .ok (if b then (did, doc) :: tail else tail)

/-- Specification-side reading of one filter entry, written from the words
of the spec for the C4 refinement: the chunk must carry the key, and the
constraint must hold — exact equality for a scalar value, membership for a
list value, and every present gte/lte/in bound for a range object, where
an order bound only holds when the comparison is defined (does not raise). -/
def specValSatisfied (dv : MValue) : FValue → Prop
  | .scalar v => pyEq dv v = true
  | .values vs => vs.any (fun v => pyEq dv v) = true
  | .range gte lte inVals =>
      (∀ gv, gte = some gv → pyLt dv gv = .ok false) ∧
      (∀ lv, lte = some lv → pyGt dv lv = .ok false) ∧
      (∀ vs, inVals = some vs → vs.any (fun v => pyEq dv v) = true)

/-- Specification-side reading of one whole filter entry: the chunk must
carry the key, and the present value must satisfy the constraint. -/
def specKeySatisfied (meta : List (String × MValue)) (k : String)
    (fv : FValue) : Prop :=
  ∃ dv, dictGet meta k = some dv ∧ specValSatisfied dv fv

/-- Assignment in an association list modelling Python dict assignment
`d[k] = v`: replaces the value in place when the key exists, otherwise
appends the new binding at the end (dict insertion order). -/
def dictSet {α : Type} : List (String × α) → String → α → List (String × α)
  | [], k, v => [(k, v)]
  | (k0, v0) :: rest, k, v =>
    if k0 = k then (k, v) :: rest else (k0, v0) :: dictSet rest k v

/-- Python `base.update(m)`: sets every binding of m into base, in order. -/
def dictUpdate {α : Type} (base m : List (String × α)) :
    List (String × α) :=
  m.foldl (fun acc kv => dictSet acc kv.1 kv.2) base

/-- Python `k in d`. -/
def hasKey {α : Type} (d : List (String × α)) (k : String) : Bool :=
  (dictGet d k).isSome

/-- Lowercasing of one character as Python str.lower does on the alphabet
this program manipulates: ASCII letters plus the accented Spanish capitals
appearing in document names. -/
def pyLowerChar (c : Char) : Char :=
  if c.isUpper then c.toLower
  else if c = 'Á' then 'á'
  else if c = 'É' then 'é'
  else if c = 'Í' then 'í'
  else if c = 'Ó' then 'ó'
  else if c = 'Ú' then 'ú'
  else if c = 'Ñ' then 'ñ'
  else if c = 'Ü' then 'ü'
  else c

/-- Python `s.lower()`. -/
def pyLower (s : String) : String := ⟨s.data.map pyLowerChar⟩

/-- Contiguous-subsequence test on character lists, modelling the Python
substring operator `needle in haystack`. -/
def containsSeq (needle : List Char) : List Char → Bool
  | [] => needle.isEmpty
  | c :: rest => needle.isPrefixOf (c :: rest) || containsSeq needle rest

/-- Python `needle in haystack` on strings. -/
def containsSub (haystack needle : String) : Bool :=
  containsSeq needle.data haystack.data

/-- Keyword table of `_detect_study_type`, in source order (dict insertion
order governs the first-match scan). -/
def study_types : List (String × List String) :=
  [("brand_health", ["brand health", "tracking", "salud marca"]),
   ("communication_test",
     ["communication", "comunicación", "advertising", "publicitario"]),
   ("concept_test", ["concept", "concepto", "evaluación concepto"]),
   ("pack_test", ["pack", "empaque", "packaging"]),
   ("usage_attitudes", ["usage", "uso", "attitudes", "actitudes"]),
   ("segmentation", ["segmentation", "segmentación"]),
   ("pricing", ["pricing", "precio", "price"]),
   ("product_test", ["product", "producto"]),
   ("maxdiff", ["maxdiff", "max diff"]),
   ("conjoint", ["conjoint", "trade-off"])]

/-- Embedding of `_detect_study_type`: lowercase the document name, return
the first study type in table order one of whose keywords occurs as a
substring, falling back to general_research. -/
def detect_study_type (document_name : String) : String :=
  let document_lower := pyLower document_name
  match study_types.find?
      (fun e => e.2.any (fun kw => containsSub document_lower kw)) with
  | some e => e.1
  | none => "general_research"

/-- Injected defaults of `_enrich_metadata`. -/
def baseMeta (nowIso : String) : List (String × MValue) :=
  [("client", MValue.vStr "tigo_honduras"),
   ("industry", MValue.vStr "telecom"),
   ("language", MValue.vStr "spanish_honduras"),
   ("processing_date", MValue.vStr nowIso)]

/-- Conditional default of `_enrich_metadata`: set the key only when it is
still absent. -/
def withDefault (d : List (String × MValue)) (k : String) (w : MValue) :
    List (String × MValue) :=
  if hasKey d k then d else dictSet d k w

/-- Study-type step of `_enrich_metadata`: when study_type is absent,
detect it from `metadata.get("document_name", "")`; calling str.lower on
a non-string document_name raises (none models the raised
AttributeError). -/
def withStudyType (metadata enriched : List (String × MValue)) :
    Option (List (String × MValue)) :=
  if hasKey enriched "study_type" then some enriched
  else
    match dictGet metadata "document_name" with
    | none =>
        some (dictSet enriched "study_type"
          (MValue.vStr (detect_study_type "")))
    | some (MValue.vStr s) =>
        some (dictSet enriched "study_type"
          (MValue.vStr (detect_study_type s)))
    | some _ => none

/-- Embedding of `_enrich_metadata`: starts from the injected
client/industry/language/processing_date defaults, overrides them with the
caller metadata, then fills study_type (detected from the document_name of
the caller metadata, defaulting to the empty string), year (current year)
and confidence_score (1.0) only when those keys are still absent. Calling
str.lower on a non-string document_name raises (modelled as typeError).
The wall clock is passed in as nowIso and nowYear. -/
def enrich_metadata (metadata : List (String × MValue)) (nowIso : String)
    (nowYear : Int) : Except PyErr (List (String × MValue)) :=
  let enriched := dictUpdate (baseMeta nowIso) metadata
  match withStudyType metadata enriched with
  | none => .error .typeError
  | some enriched1 =>
    .ok (withDefault (withDefault enriched1 "year" (MValue.vInt nowYear))
      "confidence_score" (MValue.vFloat 1))

/-- State of AzureOpenAIVectorStore: the documents dict (insertion
ordered), the auxiliary document_ids list, and the embeddings matrix
cache. -/
structure Store where
  documents : List (String × DocumentChunk)
  document_ids : List String
  embeddings_matrix : Option (List (List ℝ))

/-- State built by __init__. -/
def emptyStore : Store := ⟨[], [], none⟩

/-- Embedding of `_update_embeddings_matrix`. -/
def updateEmbeddingsMatrix (docs : List (String × DocumentChunk)) :
    Option (List (List ℝ)) :=
  if docs.isEmpty then none else some (docs.map (fun p => p.2.embedding))

/-- Embedding of `add_document`. The Azure call result is the embedding
parameter (none models a failed generation). A falsy embedding (None or
the empty list) raises ValueError; otherwise the enriched chunk is stored
under a fresh uuid chunkId, the id is appended to document_ids, and the
chunkId is returned. -/
def add_document (s : Store) (chunkId content : String)
    (embedding : Option (List ℝ)) (metadata : List (String × MValue))
    (nowIso : String) (nowYear : Int) : Except PyErr (Store × String) :=
  match embedding with
  | none => .error .valueError
  | some emb =>
    if emb.isEmpty then .error .valueError
    else
      match enrich_metadata metadata nowIso nowYear with
      | .error e => .error e
      | .ok enriched =>
        let chunk : DocumentChunk := ⟨chunkId, content, emb, enriched, nowIso⟩
        let docs := dictSet s.documents chunkId chunk
        .ok ({ documents := docs,
               document_ids := s.document_ids ++ [chunkId],
               embeddings_matrix := updateEmbeddingsMatrix docs }, chunkId)

/-- Embedding of `delete_document`: removes the key from the documents
dict and the first occurrence of the id from document_ids, returning True;
returns False leaving the store unchanged when the id is unknown. -/
def delete_document (s : Store) (docId : String) : Store × Bool :=
  if hasKey s.documents docId then
    let docs := s.documents.eraseP (fun p => p.1 == docId)
    ({ documents := docs,
       document_ids := s.document_ids.erase docId,
       embeddings_matrix := updateEmbeddingsMatrix docs }, true)
  else (s, false)

/-- Embedding of `clear_all`. -/
def clear_all (_s : Store) : Store × Bool :=
  ({ documents := [], document_ids := [], embeddings_matrix := none }, true)

/-- Embedding of `save_to_file`: the snapshot payload is the serialized
documents dict (the metadata block of the file is not read back). -/
def save_to_file (s : Store) : List (String × DocumentChunk) :=
  s.documents

/-- Embedding of `load_from_file`: clears the store, loads the snapshot
documents in file order, rebuilds document_ids from the dict keys and
refreshes the embeddings matrix. -/
def load_from_file (_s : Store) (data : List (String × DocumentChunk)) :
    Store :=
  { documents := data,
    document_ids := data.map Prod.fst,
    embeddings_matrix := updateEmbeddingsMatrix data }

/-- Comparison used to model Python `results.sort(key=lambda x: x[1],
reverse=True)`: a stable sort placing higher scores first. -/
noncomputable def simLeDesc {α : Type} (x y : α × ℝ) : Bool :=
  decide (y.2 ≤ x.2)

/-- Candidate set of `similarity_search`: the whole documents dict when
the filter is absent or empty (Python truthiness), else the filtered
dict. -/
def filteredDocs (s : Store) (mf : Option (List (String × FValue))) :
    Except PyErr (List (String × DocumentChunk)) :=
  match mf with
  | none => .ok s.documents
  | some f =>
    if f.isEmpty then .ok s.documents else filterByMetadata s.documents f

/-- Scoring loop of `similarity_search`: cosine similarity of the query
against each candidate, keeping the pairs that reach min_similarity. -/
noncomputable def scoreDocs (queryEmbedding : List ℝ) (minSimilarity : ℝ) :
    List (String × DocumentChunk) → Except PyErr (List (DocumentChunk × ℝ))
  | [] => .ok []
  | (_, doc) :: rest =>
    match cosine_similarity queryEmbedding doc.embedding with
    | .error e => .error e
    | .ok similarity =>
      match scoreDocs queryEmbedding minSimilarity rest with
      | .error e => .error e
      | .ok tail =>
        .ok (if minSimilarity ≤ similarity then (doc, similarity) :: tail
             else tail)

/-- Body of the try block of `similarity_search`, after the query
embedding has been generated: filter, early empty return, score,
stable-descending sort, truncate to k. -/
noncomputable def searchCore (s : Store) (queryEmbedding : List ℝ) (k : Nat)
    (mf : Option (List (String × FValue))) (minSimilarity : ℝ) :
    Except PyErr (List (DocumentChunk × ℝ)) :=
  match filteredDocs s mf with
  | .error e => .error e
  | .ok filtered =>
    if filtered.isEmpty then .ok []
    else
      match scoreDocs queryEmbedding minSimilarity filtered with
      | .error e => .error e
      | .ok results => .ok ((results.mergeSort simLeDesc).take k)

/-- Embedding of `similarity_search`: the catch-all except block turns any
raised error into the empty result list. -/
noncomputable def similarity_search (s : Store) (queryEmbedding : List ℝ)
    (k : Nat) (mf : Option (List (String × FValue))) (minSimilarity : ℝ) :
    List (DocumentChunk × ℝ) :=
  match searchCore s queryEmbedding k mf minSimilarity with
  | .ok results => results
  | .error _ => []

/-- Scoring loop of `top_k_similar` from core/math_utils.py: cosine
similarity of the query against every candidate, in order. Raised errors
propagate (top_k_similar has no try block). -/
noncomputable def top_k_similar_go (queryVector : List ℝ) :
    List (String × List ℝ) → Except PyErr (List (String × ℝ))
  | [] => .ok []
  | (vecId, vec) :: rest =>
    match cosine_similarity queryVector vec with
    | .error e => .error e
    | .ok similarity =>
      match top_k_similar_go queryVector rest with
      | .error e => .error e
      | .ok tail => .ok ((vecId, similarity) :: tail)

/-- Embedding of `top_k_similar`: score every candidate, sort descending
by score (stable), return the first k. -/
noncomputable def top_k_similar (queryVector : List ℝ)
    (vectors : List (String × List ℝ)) (k : Nat) :
    Except PyErr (List (String × ℝ)) :=
  match top_k_similar_go queryVector vectors with
  | .error e => .error e
  | .ok similarities => .ok ((similarities.mergeSort simLeDesc).take k)


/-- Document name used by `_enrich_metadata` for study-type detection:
`metadata.get("document_name", "")` when it is a string (the non-string
case makes `_detect_study_type` raise and is excluded by the callers of
this helper). -/
def docNameOf (metadata : List (String × MValue)) : String :=
  match dictGet metadata "document_name" with
  | some (MValue.vStr s) => s
  | _ => ""

/-- Fields of one entry of `current_config["rag_modes"]` that
`update_rag_mode_config` touches (the asdict image of RAGModeConfig). -/
structure RagModeDict where
  default_rag_percentage : Int
  min_rag_percentage : Int
  max_rag_percentage : Int
  system_prompt : String

/-- Embedding of `_update_system_prompt_with_percentage` on the prompt
text: substitutes the rag_percentage placeholder with the effective
percentage and both the creativity_percentage and llm_percentage
placeholders with 100 - rag_percentage. -/
def formatPercentages (prompt : String) (ragPercentage : Int) : String :=
  let creativity_percentage := 100 - ragPercentage
  ((prompt.replace "{rag_percentage}" (toString ragPercentage)).replace
      "{creativity_percentage}" (toString creativity_percentage)).replace
    "{llm_percentage}" (toString creativity_percentage)

/-- Embedding of `update_rag_mode_config` for a kwargs of the form
rag_percentage=v: the override is rejected with a raised error when it
lies outside [min_rag_percentage, max_rag_percentage] (before any state
is touched, so the configuration is unchanged); otherwise the system
prompt is reformatted with the effective percentage. The dataclass dict
carries no rag_percentage key, so the update loop itself stores nothing
for it. -/
def update_rag_mode_config (cfg : RagModeDict) (ragPercentage : Int) :
    Except PyErr RagModeDict :=
  if ¬ (cfg.min_rag_percentage ≤ ragPercentage ∧
        ragPercentage ≤ cfg.max_rag_percentage) then
    .error (.invalidConfiguration cfg.min_rag_percentage
      cfg.max_rag_percentage)
  else
    .ok { cfg with
      system_prompt := formatPercentages cfg.system_prompt ragPercentage }

/-- States of the vector store reachable from __init__ through the
mutating operations. An add step carries the freshness of the generated
uuid4 chunk id (collisions are assumed impossible) and only applies when
add_document returns normally; a snapshot load carries the key uniqueness
of the parsed JSON object. -/
inductive Reachable : Store → Prop where
  | init : Reachable emptyStore
  | add {s s2 : Store} {chunkId content : String} {emb : List ℝ}
      {metadata : List (String × MValue)} {nowIso : String} {nowYear : Int}
      {rid : String} :
      Reachable s → dictGet s.documents chunkId = none →
      add_document s chunkId content (some emb) metadata nowIso nowYear =
        .ok (s2, rid) →
      Reachable s2
  | del {s : Store} (docId : String) :
      Reachable s → Reachable (delete_document s docId).1
  | clearAll {s : Store} : Reachable s → Reachable (clear_all s).1
  | load {s : Store} (data : List (String × DocumentChunk)) :
      Reachable s → (data.map Prod.fst).Nodup →
      Reachable (load_from_file s data)

/-- Concrete chunk with a 2-dimensional embedding, used as concrete input
for several theorems. -/
def chunkA : DocumentChunk :=
  ⟨"d1", "doc one", [1, 0],
   [("study_type", MValue.vStr "general_research")], "t0"⟩

/-- Concrete chunk with a 2-dimensional embedding orthogonal to chunkA. -/
def chunkB : DocumentChunk :=
  ⟨"d2", "doc two", [0, 1],
   [("study_type", MValue.vStr "pricing")], "t0"⟩

/-- Concrete one-document store of established dimensionality 2. -/
def storeA : Store := ⟨[("d1", chunkA)], ["d1"], some [[1, 0]]⟩

/-- Concrete two-document store of established dimensionality 2. -/
def storeB : Store :=
  ⟨[("d1", chunkA), ("d2", chunkB)], ["d1", "d2"], some [[1, 0], [0, 1]]⟩

/-- Enriched metadata produced for an empty caller metadata at wall clock
nowIso = t and nowYear = y. -/
def enrichedDefault (t : String) (y : Int) : List (String × MValue) :=
  [("client", MValue.vStr "tigo_honduras"),
   ("industry", MValue.vStr "telecom"),
   ("language", MValue.vStr "spanish_honduras"),
   ("processing_date", MValue.vStr t),
   ("study_type", MValue.vStr "general_research"),
   ("year", MValue.vInt y),
   ("confidence_score", MValue.vFloat 1)]

/-- Chunk produced by adding a 3-dimensional embedding to storeA. -/
def chunkC : DocumentChunk :=
  ⟨"d2", "c2", [1, 0, 0], enrichedDefault "t2" 2024, "t2"⟩

/-- Store produced by adding chunkC to storeA. -/
def storeC : Store :=
  ⟨[("d1", chunkA), ("d2", chunkC)], ["d1", "d2"], some [[1, 0], [1, 0, 0]]⟩

/-- Chunk produced by adding a first document to the empty store. -/
def chunkW : DocumentChunk :=
  ⟨"d1", "doc one", [1, 0], enrichedDefault "t0" 2024, "t0"⟩

/-- Store produced by adding chunkW to the empty store. -/
def storeW : Store := ⟨[("d1", chunkW)], ["d1"], some [[1, 0]]⟩

/-- Concrete caller metadata supplying only a year. -/
def mW : List (String × MValue) := [("year", MValue.vInt 2023)]

/-- Enrichment of mW at nowIso = t and nowYear = 2024. -/
def resW : List (String × MValue) :=
  [("client", MValue.vStr "tigo_honduras"),
   ("industry", MValue.vStr "telecom"),
   ("language", MValue.vStr "spanish_honduras"),
   ("processing_date", MValue.vStr "t"),
   ("year", MValue.vInt 2023),
   ("study_type", MValue.vStr "general_research"),
   ("confidence_score", MValue.vFloat 1)]


/-- Specification-side scored candidate list for the C2 refinement,
following the words of the spec: every surviving candidate paired with
its cosine similarity against the query, with scores below
min_similarity discarded. -/
noncomputable def specScored (q : List ℝ) (minSim : ℝ)
    (fl : List (String × DocumentChunk)) : List (DocumentChunk × ℝ) :=
  (fl.map (fun p => (p.2, cosVal q p.2.embedding))).filter
    (fun r => decide (minSim ≤ r.2))

/-- Specification-side sorted result list for the C2 refinement: the
scored list sorted descending by score with a stable sort. -/
noncomputable def specSorted (q : List ℝ) (minSim : ℝ)
    (fl : List (String × DocumentChunk)) : List (DocumentChunk × ℝ) :=
  (specScored q minSim fl).mergeSort simLeDesc

lemma cosine_similarity_eq_ok {vec1 vec2 : List ℝ}
    (h : vec1.length = vec2.length) :
    cosine_similarity vec1 vec2 = .ok (cosVal vec1 vec2) := by
  unfold cosine_similarity cosVal
  simp only [h, ne_eq, not_true_eq_false, if_false, ite_not]
  by_cases hz : magnitudeOf vec1 = 0 ∨ magnitudeOf vec2 = 0 <;> simp [hz]

lemma sumSq_nonneg (vec : List ℝ) : 0 ≤ sumSq vec := by
  unfold sumSq
  apply List.sum_nonneg
  intro x hx
  rcases List.mem_map.mp hx with ⟨a, _, rfl⟩
  exact mul_self_nonneg a

lemma magnitudeOf_eq_zero {vec : List ℝ} :
    magnitudeOf vec = 0 ↔ sumSq vec = 0 := by
  unfold magnitudeOf
  rw [Real.sqrt_eq_zero']
  constructor
  · intro h; exact le_antisymm h (sumSq_nonneg vec)
  · intro h; exact le_of_eq h

lemma dotList_self (vec : List ℝ) : dotList vec vec = sumSq vec := by
  induction vec with
  | nil => rfl
  | cons a t ih =>
      simp only [dotList, sumSq, List.zipWith_cons_cons, List.map_cons,
        List.sum_cons] at *
      rw [ih]

/-- C3: cosine_similarity fails with DimensionMismatch on unequal lengths;
returns exactly 0.0 when either vector has zero magnitude (equivalently,
zero sum of squares); otherwise returns dot(a,b)/(|a||b|) clamped into
[-1.0, 1.0]; and on any nonzero vector a, cosine_similarity(a, a) is
exactly 1.0 (hence within floating-point tolerance of 1.0). -/
theorem cosine_similarity_spec (a b : List ℝ) :
    (a.length ≠ b.length →
      cosine_similarity a b = .error (.dimensionMismatch a.length b.length))
    ∧ (a.length = b.length → sumSq a = 0 ∨ sumSq b = 0 →
      cosine_similarity a b = .ok 0)
    ∧ (a.length = b.length → sumSq a ≠ 0 → sumSq b ≠ 0 →
      cosine_similarity a b =
        .ok (max (-1) (min 1 (dotList a b / (magnitudeOf a * magnitudeOf b)))))
    ∧ (sumSq a ≠ 0 → cosine_similarity a a = .ok 1) := by
  refine ⟨?_, ?_, ?_, ?_⟩
  · intro h
    unfold cosine_similarity
    simp [h]
  · intro h hz
    rw [cosine_similarity_eq_ok h]
    unfold cosVal
    have : magnitudeOf a = 0 ∨ magnitudeOf b = 0 := by
      rcases hz with hz | hz
      · exact Or.inl (magnitudeOf_eq_zero.mpr hz)
      · exact Or.inr (magnitudeOf_eq_zero.mpr hz)
    simp [this]
  · intro h ha hb
    rw [cosine_similarity_eq_ok h]
    unfold cosVal
    have hma : ¬ magnitudeOf a = 0 := fun hc => ha (magnitudeOf_eq_zero.mp hc)
    have hmb : ¬ magnitudeOf b = 0 := fun hc => hb (magnitudeOf_eq_zero.mp hc)
    simp [hma, hmb]
  · intro ha
    rw [cosine_similarity_eq_ok rfl]
    unfold cosVal
    have hma : ¬ magnitudeOf a = 0 := fun hc => ha (magnitudeOf_eq_zero.mp hc)
    have hpos : 0 < sumSq a := lt_of_le_of_ne (sumSq_nonneg a) (Ne.symm ha)
    have hmm : magnitudeOf a * magnitudeOf a = sumSq a :=
      Real.mul_self_sqrt (sumSq_nonneg a)
    rw [if_neg (by simp [hma]), dotList_self, hmm, div_self (ne_of_gt hpos)]
    norm_num

/-- Witness for C3: the dimension-mismatch case at ([1], [1,2]), the
zero-magnitude case at ([3,4], [0,0]), the generic case at ([3,4], [4,3]),
and the self-similarity case at [3,4]. -/
theorem cosine_similarity_spec_witness :
    cosine_similarity [(1 : ℝ)] [1, 2] = .error (.dimensionMismatch 1 2)
    ∧ cosine_similarity [(3 : ℝ), 4] [0, 0] = .ok 0
    ∧ cosine_similarity [(3 : ℝ), 4] [4, 3] =
        .ok (max (-1) (min 1 (dotList [(3 : ℝ), 4] [4, 3] /
          (magnitudeOf [(3 : ℝ), 4] * magnitudeOf [(4 : ℝ), 3]))))
    ∧ cosine_similarity [(3 : ℝ), 4] [3, 4] = .ok 1 := by
  refine ⟨?_, ?_, ?_, ?_⟩
  · exact (cosine_similarity_spec [(1 : ℝ)] [1, 2]).1 (by simp)
  · exact (cosine_similarity_spec [(3 : ℝ), 4] [0, 0]).2.1 (by simp)
      (Or.inr (by norm_num [sumSq]))
  · exact (cosine_similarity_spec [(3 : ℝ), 4] [4, 3]).2.2.1 (by simp)
      (by norm_num [sumSq]) (by norm_num [sumSq])
  · exact (cosine_similarity_spec [(3 : ℝ), 4] [3, 4]).2.2.2
      (by norm_num [sumSq])


lemma stepCheck_ok_true_iff {e next : Except PyErr Bool} :
    stepCheck e next = .ok true ↔ e = .ok false ∧ next = .ok true := by
  rcases e with err | b
  · simp [stepCheck]
  · cases b <;> simp [stepCheck]

lemma boundCheck_ok_false_iff (o : Option MValue)
    (f : MValue → Except PyErr Bool) :
    (match o with | some gv => f gv | none => .ok false) = .ok false ↔
      (∀ gv, o = some gv → f gv = .ok false) := by
  rcases o with _ | gv <;> simp

lemma matchesKey_ok_true_iff (dv : MValue) (fv : FValue) :
    matchesKey dv fv = .ok true ↔ specValSatisfied dv fv := by
  cases fv with
  | scalar v => simp [matchesKey, specValSatisfied]
  | values vs => simp [matchesKey, specValSatisfied]
  | range gte lte inVals =>
    show stepCheck _ _ = .ok true ↔ _
    rw [stepCheck_ok_true_iff, stepCheck_ok_true_iff,
      boundCheck_ok_false_iff, boundCheck_ok_false_iff]
    unfold specValSatisfied
    rcases inVals with _ | vs <;> simp [and_assoc]

lemma metadataMatches_ok_true_iff (meta : List (String × MValue))
    (f : List (String × FValue)) :
    metadataMatches meta f = .ok true ↔
      ∀ e ∈ f, specKeySatisfied meta e.1 e.2 := by
  induction f with
  | nil => simp [metadataMatches]
  | cons e rest ih =>
    obtain ⟨k, fv⟩ := e
    rcases hd : dictGet meta k with _ | dv
    · simp only [metadataMatches, hd, List.mem_cons, forall_eq_or_imp]
      constructor
      · intro h; simp at h
      · rintro ⟨⟨dv, hdv, -⟩, -⟩
        rw [hd] at hdv; cases hdv
    · rcases hm : matchesKey dv fv with err | b
      · simp only [metadataMatches, hd, hm, List.mem_cons, forall_eq_or_imp]
        constructor
        · intro h; simp at h
        · rintro ⟨⟨dv0, hdv0, hsat⟩, -⟩
          rw [hd] at hdv0
          cases hdv0
          rw [← matchesKey_ok_true_iff, hm] at hsat
          simp at hsat
      · cases b
        · simp only [metadataMatches, hd, hm, List.mem_cons, forall_eq_or_imp]
          constructor
          · intro h; simp at h
          · rintro ⟨⟨dv0, hdv0, hsat⟩, -⟩
            rw [hd] at hdv0
            cases hdv0
            rw [← matchesKey_ok_true_iff, hm] at hsat
            simp at hsat
        · simp only [metadataMatches, hd, hm, List.mem_cons, forall_eq_or_imp]
          rw [ih]
          constructor
          · intro h
            refine ⟨⟨dv, hd, ?_⟩, h⟩
            exact (matchesKey_ok_true_iff dv fv).mp hm
          · rintro ⟨-, h⟩; exact h

/-- C4: a chunk matches a metadata filter iff it satisfies every filter
entry (conjunction): the key must be present in the chunk's metadata, a
scalar value requires equality, a list value requires membership, and a
range object requires every present gte/lte/in bound to hold.
Consequently the empty filter matches every chunk, a list predicate with
an empty list matches nothing, and a key absent from the chunk's metadata
makes any filter containing that key fail to match. -/
theorem metadata_filter_conjunction_spec (meta : List (String × MValue))
    (f : List (String × FValue)) :
    (metadataMatches meta f = .ok true ↔
      ∀ e ∈ f, specKeySatisfied meta e.1 e.2)
    ∧ metadataMatches meta [] = .ok true
    ∧ (∀ k, (k, FValue.values []) ∈ f → metadataMatches meta f ≠ .ok true)
    ∧ (∀ k fv, (k, fv) ∈ f → dictGet meta k = none →
        metadataMatches meta f ≠ .ok true) := by
  refine ⟨metadataMatches_ok_true_iff meta f, rfl, ?_, ?_⟩
  · intro k hk hmm
    have := (metadataMatches_ok_true_iff meta f).mp hmm (k, FValue.values []) hk
    obtain ⟨dv, -, hsat⟩ := this
    simp [specValSatisfied] at hsat
  · intro k fv hk hnone hmm
    have := (metadataMatches_ok_true_iff meta f).mp hmm (k, fv) hk
    obtain ⟨dv, hdv, -⟩ := this
    rw [hnone] at hdv
    cases hdv

/-- Witness for C4 at a concrete chunk metadata and filter: metadata
assigning study_type ↦ pricing and year ↦ 2024, filter with an empty
membership list on study_type (matches nothing) and a filter on a key
absent from the metadata. -/
theorem metadata_filter_conjunction_spec_witness :
    metadataMatches [("study_type", MValue.vStr "pricing")]
        [("study_type", FValue.values [])] ≠ .ok true
    ∧ metadataMatches [("study_type", MValue.vStr "pricing")]
        [("year", FValue.scalar (MValue.vInt 2024))] ≠ .ok true
    ∧ metadataMatches [("study_type", MValue.vStr "pricing")] [] = .ok true := by
  refine ⟨?_, ?_, ?_⟩
  · exact (metadata_filter_conjunction_spec
      [("study_type", MValue.vStr "pricing")]
      [("study_type", FValue.values [])]).2.2.1 "study_type" (by simp)
  · exact (metadata_filter_conjunction_spec
      [("study_type", MValue.vStr "pricing")]
      [("year", FValue.scalar (MValue.vInt 2024))]).2.2.2 "year"
      (FValue.scalar (MValue.vInt 2024)) (by simp) (by simp [dictGet])
  · exact (metadata_filter_conjunction_spec
      [("study_type", MValue.vStr "pricing")] []).2.1


lemma simLeDesc_trans {α : Type} (a b c : α × ℝ) :
    simLeDesc a b = true → simLeDesc b c = true → simLeDesc a c = true := by
  simp only [simLeDesc, decide_eq_true_eq]
  exact fun h1 h2 => le_trans h2 h1

lemma simLeDesc_total {α : Type} (a b : α × ℝ) :
    (simLeDesc a b || simLeDesc b a) = true := by
  simp only [simLeDesc, Bool.or_eq_true, decide_eq_true_eq]
  exact le_total b.2 a.2

lemma mergeSort_simLeDesc_sorted {α : Type} (l : List (α × ℝ)) :
    (l.mergeSort simLeDesc).Pairwise (fun x y => y.2 ≤ x.2) := by
  have h := List.sorted_mergeSort (simLeDesc_trans (α := α))
    (simLeDesc_total (α := α)) l
  exact h.imp (by intro a b hab; simpa [simLeDesc] using hab)

lemma mergeSort_simLeDesc_stable {α : Type} (l : List (α × ℝ)) (v : ℝ) :
    (l.mergeSort simLeDesc).filter (fun r => decide (r.2 = v)) =
      l.filter (fun r => decide (r.2 = v)) := by
  classical
  set p : α × ℝ → Bool := fun r => decide (r.2 = v) with hp
  have hsub : (l.filter p).Sublist l := List.filter_sublist l
  have hpw : (l.filter p).Pairwise (fun a b => simLeDesc a b = true) := by
    rw [List.pairwise_iff_forall_sublist]
    intro a b hab
    have ha : a ∈ l.filter p := hab.subset (by simp)
    have hb : b ∈ l.filter p := hab.subset (by simp)
    have ha2 : a.2 = v := by simpa [hp] using (List.mem_filter.mp ha).2
    have hb2 : b.2 = v := by simpa [hp] using (List.mem_filter.mp hb).2
    simp [simLeDesc, ha2, hb2]
  have h2 : (l.filter p).Sublist (l.mergeSort simLeDesc) :=
    List.sublist_mergeSort (simLeDesc_trans (α := α))
      (simLeDesc_total (α := α)) hpw hsub
  have h3 : ((l.filter p).filter p).Sublist
      ((l.mergeSort simLeDesc).filter p) := h2.filter p
  rw [List.filter_eq_self.mpr (fun a ha => (List.mem_filter.mp ha).2)] at h3
  have hperm : ((l.mergeSort simLeDesc).filter p).Perm (l.filter p) :=
    (List.mergeSort_perm l simLeDesc).filter p
  exact (h3.eq_of_length hperm.length_eq.symm).symm

lemma top_k_similar_go_ok (q : List ℝ) (cands : List (String × List ℝ))
    (h : ∀ c ∈ cands, c.2.length = q.length) :
    top_k_similar_go q cands =
      .ok (cands.map (fun c => (c.1, cosVal q c.2))) := by
  induction cands with
  | nil => rfl
  | cons c rest ih =>
    obtain ⟨cid, vec⟩ := c
    have hv : vec.length = q.length := h (cid, vec) (by simp)
    have hc : cosine_similarity q vec = .ok (cosVal q vec) :=
      cosine_similarity_eq_ok hv.symm
    have ih2 := ih (fun c hc2 => h c (List.mem_cons_of_mem _ hc2))
    simp only [top_k_similar_go, hc, ih2, List.map_cons]

/-- C6: with candidates of matching dimensionality, top_k_similar scores
every candidate by cosine similarity, sorts the scored pairs descending
by score with a stable sort (equal-score candidates keep their original
relative order) and returns the first k; when k is at least the candidate
count, it returns all candidates sorted descending. -/
theorem top_k_similar_full_spec (q : List ℝ)
    (cands : List (String × List ℝ)) (k : Nat)
    (hdim : ∀ c ∈ cands, c.2.length = q.length) :
    top_k_similar q cands k =
      .ok (((cands.map (fun c => (c.1, cosVal q c.2))).mergeSort
        simLeDesc).take k)
    ∧ ((cands.map (fun c => (c.1, cosVal q c.2))).mergeSort
        simLeDesc).Pairwise (fun x y => y.2 ≤ x.2)
    ∧ (∀ v : ℝ,
        ((cands.map (fun c => (c.1, cosVal q c.2))).mergeSort
            simLeDesc).filter (fun r => decide (r.2 = v)) =
          (cands.map (fun c => (c.1, cosVal q c.2))).filter
            (fun r => decide (r.2 = v)))
    ∧ (cands.length ≤ k →
        top_k_similar q cands k =
          .ok ((cands.map (fun c => (c.1, cosVal q c.2))).mergeSort
            simLeDesc)) := by
  have hgo := top_k_similar_go_ok q cands hdim
  refine ⟨?_, mergeSort_simLeDesc_sorted _,
    fun v => mergeSort_simLeDesc_stable _ v, ?_⟩
  · simp only [top_k_similar, hgo]
  · intro hk
    simp only [top_k_similar, hgo]
    rw [List.take_of_length_le
      (by rw [List.length_mergeSort, List.length_map]; exact hk)]

/-- Witness for C6 at the query [1,0], candidates [("a",[0,1]), ("b",[1,0])]
and k = 5: the sorted scored list is descending in score. -/
theorem top_k_similar_full_spec_witness :
    (([("a", ([0, 1] : List ℝ)), ("b", [1, 0])].map
        (fun c => (c.1, cosVal [(1 : ℝ), 0] c.2))).mergeSort
      simLeDesc).Pairwise (fun x y => y.2 ≤ x.2) :=
  (top_k_similar_full_spec [(1 : ℝ), 0]
    [("a", [0, 1]), ("b", [1, 0])] 5 (by decide)).2.1

lemma filterByMetadata_sublist {docs : List (String × DocumentChunk)}
    {f : List (String × FValue)} {fl : List (String × DocumentChunk)}
    (h : filterByMetadata docs f = .ok fl) : fl.Sublist docs := by
  induction docs generalizing fl with
  | nil =>
    simp only [filterByMetadata] at h
    injection h with h2
    subst h2
    exact List.Sublist.refl _
  | cons d rest ih =>
    obtain ⟨did, doc⟩ := d
    rcases hm : metadataMatches doc.metadata f with e | b
    · simp only [filterByMetadata, hm] at h
      exact Except.noConfusion h
    · rcases hrest : filterByMetadata rest f with e2 | tail
      · simp only [filterByMetadata, hm, hrest] at h
        exact Except.noConfusion h
      · have htail := ih hrest
        simp only [filterByMetadata, hm, hrest] at h
        injection h with h2
        cases b
        · simp only [if_neg Bool.false_ne_true] at h2
          subst h2
          exact htail.cons _
        · simp only [if_pos rfl] at h2
          subst h2
          exact htail.cons₂ _

lemma filteredDocs_sublist {s : Store}
    {mf : Option (List (String × FValue))}
    {fl : List (String × DocumentChunk)}
    (h : filteredDocs s mf = .ok fl) : fl.Sublist s.documents := by
  cases mf with
  | none =>
    simp only [filteredDocs] at h
    injection h with h2
    subst h2
    exact List.Sublist.refl _
  | some f =>
    simp only [filteredDocs] at h
    by_cases hf : f.isEmpty
    · rw [if_pos hf] at h
      injection h with h2
      subst h2
      exact List.Sublist.refl _
    · rw [if_neg hf] at h
      exact filterByMetadata_sublist h

lemma scoreDocs_ok (q : List ℝ) (minSim : ℝ)
    (docs : List (String × DocumentChunk))
    (h : ∀ p ∈ docs, p.2.embedding.length = q.length) :
    scoreDocs q minSim docs =
      .ok ((docs.map (fun p => (p.2, cosVal q p.2.embedding))).filter
        (fun r => decide (minSim ≤ r.2))) := by
  induction docs with
  | nil => rfl
  | cons d rest ih =>
    obtain ⟨did, doc⟩ := d
    have hd : doc.embedding.length = q.length := h (did, doc) (by simp)
    have hc : cosine_similarity q doc.embedding =
        .ok (cosVal q doc.embedding) := cosine_similarity_eq_ok hd.symm
    have ih2 := ih (fun p hp => h p (List.mem_cons_of_mem _ hp))
    simp only [scoreDocs, hc, ih2, List.map_cons, List.filter_cons]
    by_cases hle : minSim ≤ cosVal q doc.embedding
    · simp [hle]
    · simp [hle]

/-- C2: with a query of the store's dimensionality and a filter whose
evaluation succeeds with surviving candidates fl, similarity_search
returns exactly the first k of the stable descending sort of the
cosine-scored candidates that reach min_similarity, with no error raised
(searchCore returns ok); the sorted list is descending in score and
stable (candidates of equal score keep their candidate order); and when
the store or the filtered subset is empty the result is the empty list
without error. -/
theorem similarity_search_pipeline_spec (s : Store) (q : List ℝ) (k : Nat)
    (mf : Option (List (String × FValue))) (minSim : ℝ)
    (fl : List (String × DocumentChunk))
    (hdim : ∀ p ∈ s.documents, p.2.embedding.length = q.length)
    (hf : filteredDocs s mf = .ok fl) :
    searchCore s q k mf minSim = .ok ((specSorted q minSim fl).take k)
    ∧ similarity_search s q k mf minSim = (specSorted q minSim fl).take k
    ∧ (specSorted q minSim fl).Pairwise (fun x y => y.2 ≤ x.2)
    ∧ (∀ v : ℝ,
        (specSorted q minSim fl).filter (fun r => decide (r.2 = v)) =
          (specScored q minSim fl).filter (fun r => decide (r.2 = v)))
    ∧ (fl = [] → similarity_search s q k mf minSim = []
        ∧ searchCore s q k mf minSim = .ok []) := by
  have hdimfl : ∀ p ∈ fl, p.2.embedding.length = q.length :=
    fun p hp => hdim p ((filteredDocs_sublist hf).subset hp)
  have hscore := scoreDocs_ok q minSim fl hdimfl
  have hcore : searchCore s q k mf minSim =
      .ok ((specSorted q minSim fl).take k) := by
    simp only [searchCore, hf]
    by_cases hfl : fl.isEmpty
    · rw [if_pos hfl]
      rw [List.isEmpty_iff] at hfl
      subst hfl
      simp [specSorted, specScored]
    · rw [if_neg hfl, hscore]
      rfl
  refine ⟨hcore, by simp only [similarity_search, hcore],
    mergeSort_simLeDesc_sorted _,
    fun v => mergeSort_simLeDesc_stable _ v, ?_⟩
  · rintro rfl
    have hempty : (specSorted q minSim ([] : List (String × DocumentChunk))).take k = [] := by
      simp [specSorted, specScored]
    rw [hempty] at hcore
    exact ⟨by simp only [similarity_search, hcore], hcore⟩

/-- Witness for C2 at the two-document store storeB, query [1,0], k = 5,
no filter and min_similarity 0. -/
theorem similarity_search_pipeline_spec_witness :
    similarity_search storeB [1, 0] 5 none 0 =
      (specSorted [(1 : ℝ), 0] 0 storeB.documents).take 5 :=
  (similarity_search_pipeline_spec storeB [1, 0] 5 none 0
    storeB.documents (by decide) rfl).2.1

/-- C1 counterexample: at the concrete store storeA (established
dimensionality 2) and the 3-dimensional query [1,0,0], the
DimensionMismatch raised inside the search loop is caught by the
catch-all except block of similarity_search, which returns the empty
result list instead of surfacing the error to its caller. -/
theorem similarity_search_mismatch_counterexample :
    searchCore storeA [1, 0, 0] 5 none 0.7 =
      .error (.dimensionMismatch 3 2)
    ∧ similarity_search storeA [1, 0, 0] 5 none 0.7 = [] :=
  ⟨rfl, rfl⟩

/-- C1 amended: when the query embedding length differs from the common
embedding length d of the (nonempty) candidate set, cosine_similarity
raises DimensionMismatch inside the search loop — but similarity_search
catches every error and returns the empty list, so the failure is not
surfaced to the caller; only searchCore, the body of its try block,
carries the error. -/
theorem similarity_search_swallows_mismatch (s : Store) (q : List ℝ)
    (k : Nat) (mf : Option (List (String × FValue))) (minSim : ℝ)
    (fl : List (String × DocumentChunk)) (d : Nat)
    (hf : filteredDocs s mf = .ok fl) (hne : fl ≠ [])
    (hdim : ∀ p ∈ fl, p.2.embedding.length = d) (hq : q.length ≠ d) :
    searchCore s q k mf minSim = .error (.dimensionMismatch q.length d)
    ∧ similarity_search s q k mf minSim = [] := by
  have hcore : searchCore s q k mf minSim =
      .error (.dimensionMismatch q.length d) := by
    cases fl with
    | nil => exact absurd rfl hne
    | cons p rest =>
      obtain ⟨did, doc⟩ := p
      have hd : doc.embedding.length = d := hdim (did, doc) (by simp)
      have hcos : cosine_similarity q doc.embedding =
          .error (.dimensionMismatch q.length d) := by
        unfold cosine_similarity
        rw [if_pos (by rw [hd]; exact hq), hd]
      simp only [searchCore, hf]
      rw [if_neg (by simp)]
      simp only [scoreDocs, hcos]
  exact ⟨hcore, by simp only [similarity_search, hcore]⟩

/-- Witness for the amended C1 at storeA, query [2,0,0], k = 3 and
min_similarity 0. -/
theorem similarity_search_swallows_mismatch_witness :
    similarity_search storeA [2, 0, 0] 3 none 0 = [] :=
  (similarity_search_swallows_mismatch storeA [2, 0, 0] 3 none 0
    storeA.documents 2 rfl (by simp [storeA]) (by decide) (by decide)).2

/-- C7 counterexample: storeA has established dimensionality 2
(one document with embedding [1,0]), yet add_document accepts the
3-dimensional embedding [1,0,0] and returns the new chunk id instead of
rejecting the mismatched length. -/
theorem add_document_accepts_mismatched_dim :
    add_document storeA "d2" "c2" (some [1, 0, 0]) [] "t2" 2024 =
      .ok (storeC, "d2") := rfl

/-- C7 amended: add_document fails only on a falsy embedding (a failed
generation or the empty list) or on a raising metadata enrichment; it
performs no dimensionality check at all, so any nonempty embedding —
whatever its length — is stored and the new chunk id is returned. -/
theorem add_document_spec (s : Store) (chunkId content : String)
    (metadata : List (String × MValue)) (t : String) (y : Int) :
    add_document s chunkId content none metadata t y = .error .valueError
    ∧ add_document s chunkId content (some []) metadata t y =
        .error .valueError
    ∧ (∀ (e : List ℝ), e ≠ [] →
        ∀ em, enrich_metadata metadata t y = .ok em →
        add_document s chunkId content (some e) metadata t y =
          .ok ({ documents := dictSet s.documents chunkId
                   ⟨chunkId, content, e, em, t⟩,
                 document_ids := s.document_ids ++ [chunkId],
                 embeddings_matrix := updateEmbeddingsMatrix
                   (dictSet s.documents chunkId
                     ⟨chunkId, content, e, em, t⟩) }, chunkId))
    ∧ (∀ (e : List ℝ), e ≠ [] →
        ∀ err, enrich_metadata metadata t y = .error err →
        add_document s chunkId content (some e) metadata t y =
          .error err) := by
  refine ⟨rfl, rfl, ?_, ?_⟩
  · intro e he em hem
    cases e with
    | nil => exact absurd rfl he
    | cons a as => simp only [add_document, List.isEmpty_cons,
        Bool.false_eq_true, if_false, hem]
  · intro e he err hem
    cases e with
    | nil => exact absurd rfl he
    | cons a as => simp only [add_document, List.isEmpty_cons,
        Bool.false_eq_true, if_false, hem]

/-- Witness for the amended C7: a failed embedding generation raises, and
a well-formed add on storeB returns the new chunk id. -/
theorem add_document_spec_witness :
    add_document storeB "d3" "c3" none [] "t3" 2025 = .error .valueError
    ∧ add_document storeB "d3" "c3" (some [0, 0, 5]) [] "t3" 2025 =
        .ok ({ documents := dictSet storeB.documents "d3"
                 ⟨"d3", "c3", [0, 0, 5], enrichedDefault "t3" 2025, "t3"⟩,
               document_ids := storeB.document_ids ++ ["d3"],
               embeddings_matrix := updateEmbeddingsMatrix
                 (dictSet storeB.documents "d3"
                   ⟨"d3", "c3", [0, 0, 5], enrichedDefault "t3" 2025,
                    "t3"⟩) }, "d3") :=
  ⟨(add_document_spec storeB "d3" "c3" [] "t3" 2025).1,
   (add_document_spec storeB "d3" "c3" [] "t3" 2025).2.2.1
     [0, 0, 5] (by simp) (enrichedDefault "t3" 2025) rfl⟩

/-- C8: serializing a store and loading the snapshot into any store
produces an equivalent store: the documents dict is reproduced exactly
(in the same order), document_ids is rebuilt as its key list, and
similarity_search returns identical ordered results on the original and
the reloaded store for every query embedding, k, filter and threshold. -/
theorem save_load_round_trip (s t2 : Store) (q : List ℝ) (k : Nat)
    (mf : Option (List (String × FValue))) (minSim : ℝ) :
    (load_from_file t2 (save_to_file s)).documents = s.documents
    ∧ (load_from_file t2 (save_to_file s)).document_ids =
        s.documents.map Prod.fst
    ∧ similarity_search (load_from_file t2 (save_to_file s)) q k mf minSim
        = similarity_search s q k mf minSim := by
  refine ⟨rfl, rfl, ?_⟩
  have hfd : filteredDocs (load_from_file t2 (save_to_file s)) mf =
      filteredDocs s mf := by
    cases mf <;> rfl
  simp only [similarity_search, searchCore, hfd]

lemma dictGet_eq_none_iff {α : Type} {d : List (String × α)} {k : String} :
    dictGet d k = none ↔ k ∉ d.map Prod.fst := by
  induction d with
  | nil => simp [dictGet]
  | cons e rest ih =>
    obtain ⟨k0, v0⟩ := e
    by_cases hk : k0 = k
    · subst hk
      simp [dictGet]
    · simp only [dictGet, if_neg hk, List.map_cons, List.mem_cons, ih]
      constructor
      · rintro h2 (h3 | h3)
        · exact hk h3.symm
        · exact h2 h3
      · intro h2 h3
        exact h2 (Or.inr h3)

lemma dictSet_of_not_mem {α : Type} {d : List (String × α)} {k : String}
    (h : dictGet d k = none) (v : α) : dictSet d k v = d ++ [(k, v)] := by
  induction d with
  | nil => rfl
  | cons e rest ih =>
    obtain ⟨k0, v0⟩ := e
    simp only [dictGet] at h
    by_cases hk : k0 = k
    · rw [if_pos hk] at h
      cases h
    · rw [if_neg hk] at h
      simp [dictSet, hk, ih h]

lemma keys_eraseP {α : Type} (d : List (String × α)) (k : String) :
    (d.eraseP (fun p => p.1 == k)).map Prod.fst =
      (d.map Prod.fst).erase k := by
  induction d with
  | nil => rfl
  | cons e rest ih =>
    obtain ⟨k0, v0⟩ := e
    by_cases hk : k0 = k
    · subst hk
      simp [List.eraseP_cons, List.erase_cons]
    · simp [List.eraseP_cons, List.erase_cons, hk, ih]

lemma add_document_ok_inv {s s2 : Store} {chunkId content : String}
    {emb : List ℝ} {metadata : List (String × MValue)} {nowIso : String}
    {nowYear : Int} {rid : String}
    (hadd : add_document s chunkId content (some emb) metadata nowIso
      nowYear = .ok (s2, rid)) :
    ∃ chunk : DocumentChunk,
      s2.documents = dictSet s.documents chunkId chunk ∧
      s2.document_ids = s.document_ids ++ [chunkId] := by
  by_cases he : emb.isEmpty
  · simp only [add_document, if_pos he] at hadd
    exact Except.noConfusion hadd
  · simp only [add_document, if_neg he] at hadd
    rcases henr : enrich_metadata metadata nowIso nowYear with err | em <;>
      rw [henr] at hadd
    · exact Except.noConfusion hadd
    · injection hadd with h1
      rw [Prod.mk.injEq] at h1
      obtain ⟨hs, -⟩ := h1
      exact ⟨⟨chunkId, content, emb, em, nowIso⟩, by rw [← hs], by rw [← hs]⟩

/-- C9: in every store state reachable from __init__ by any sequence of
successful add, delete, clear and snapshot-load operations (with fresh
uuid ids on add and unique keys in loaded snapshots), document_ids is
exactly the key list of the documents dict, in order and without
duplicates. -/
theorem document_ids_matches_documents (s : Store) (h : Reachable s) :
    s.document_ids = s.documents.map Prod.fst ∧
      (s.documents.map Prod.fst).Nodup := by
  induction h with
  | init => exact ⟨rfl, List.nodup_nil⟩
  | add hr hfresh hadd ih =>
    obtain ⟨chunk, hdocs, hids⟩ := add_document_ok_inv hadd
    have hmem := dictGet_eq_none_iff.mp hfresh
    rw [hdocs, hids, dictSet_of_not_mem hfresh chunk, List.map_append]
    constructor
    · rw [ih.1]
      rfl
    · rw [List.nodup_append]
      exact ⟨ih.2, List.nodup_singleton _,
        fun a ha hb => by simp at hb; subst hb; exact hmem ha⟩
  | del docId hr ih =>
    rename_i s0
    by_cases hk : hasKey s0.documents docId = true
    · simp only [delete_document, hk, if_true]
      constructor
      · rw [ih.1, keys_eraseP]
      · rw [keys_eraseP]
        exact ih.2.erase _
    · simp only [delete_document, hk, if_false]
      exact ih
  | clearAll hr ih => exact ⟨rfl, List.nodup_nil⟩
  | load data hr hnd ih => exact ⟨rfl, hnd⟩

/-- Witness for C9 at the store obtained by one successful add on the
empty store. -/
theorem document_ids_matches_documents_witness :
    storeW.document_ids = storeW.documents.map Prod.fst ∧
      (storeW.documents.map Prod.fst).Nodup :=
  document_ids_matches_documents storeW
    (@Reachable.add emptyStore storeW "d1" "doc one" [1, 0] [] "t0" 2024
      "d1" Reachable.init rfl rfl)

lemma dictGet_dictSet_self {α : Type} (d : List (String × α)) (k : String)
    (v : α) : dictGet (dictSet d k v) k = some v := by
  induction d with
  | nil => simp [dictSet, dictGet]
  | cons e rest ih =>
    obtain ⟨k0, v0⟩ := e
    by_cases hk : k0 = k
    · simp [dictSet, hk, dictGet]
    · simp [dictSet, hk, dictGet, ih]

lemma dictGet_dictSet_ne {α : Type} (d : List (String × α))
    {k2 k : String} (h : k2 ≠ k) (v : α) :
    dictGet (dictSet d k2 v) k = dictGet d k := by
  induction d with
  | nil => simp [dictSet, dictGet, h]
  | cons e rest ih =>
    obtain ⟨k0, v0⟩ := e
    by_cases hk2 : k0 = k2
    · subst hk2
      simp only [dictSet, if_pos rfl, dictGet]
      rw [if_neg h, if_neg h]
    · simp only [dictSet, if_neg hk2, dictGet]
      by_cases hk : k0 = k
      · rw [if_pos hk, if_pos hk]
      · rw [if_neg hk, if_neg hk, ih]

lemma dictGet_dictUpdate_of_none {α : Type} {m : List (String × α)}
    {k : String} (hm : dictGet m k = none)
    (base : List (String × α)) :
    dictGet (dictUpdate base m) k = dictGet base k := by
  induction m generalizing base with
  | nil => rfl
  | cons e rest ih =>
    obtain ⟨k0, v0⟩ := e
    simp only [dictGet] at hm
    by_cases hk : k0 = k
    · rw [if_pos hk] at hm
      cases hm
    · rw [if_neg hk] at hm
      show dictGet (dictUpdate (dictSet base k0 v0) rest) k = _
      rw [ih hm, dictGet_dictSet_ne _ hk]

lemma dictGet_dictUpdate_of_get {α : Type} {m : List (String × α)}
    {k : String} {v : α} (hnd : (m.map Prod.fst).Nodup)
    (hm : dictGet m k = some v) (base : List (String × α)) :
    dictGet (dictUpdate base m) k = some v := by
  induction m generalizing base with
  | nil => cases hm
  | cons e rest ih =>
    obtain ⟨k0, v0⟩ := e
    simp only [dictGet] at hm
    simp only [List.map_cons, List.nodup_cons] at hnd
    by_cases hk : k0 = k
    · rw [if_pos hk] at hm
      injection hm with hv
      subst hk
      have hrest : dictGet rest k0 = none := dictGet_eq_none_iff.mpr hnd.1
      show dictGet (dictUpdate (dictSet base k0 v0) rest) k0 = some v
      rw [dictGet_dictUpdate_of_none hrest, dictGet_dictSet_self, hv]
    · rw [if_neg hk] at hm
      show dictGet (dictUpdate (dictSet base k0 v0) rest) k = some v
      exact ih hnd.2 hm _

lemma dictGet_dictSet_preserve {α : Type} {d : List (String × α)}
    {k k2 : String} {v : α} (h : dictGet d k = some v)
    (hn : dictGet d k2 = none) (w : α) :
    dictGet (dictSet d k2 w) k = some v := by
  have hne : k2 ≠ k := by
    rintro rfl
    rw [hn] at h
    cases h
  rw [dictGet_dictSet_ne _ hne]
  exact h

lemma dictGet_withDefault_preserve {d : List (String × MValue)}
    {k : String} {v : MValue} (h : dictGet d k = some v) (k2 : String)
    (w : MValue) : dictGet (withDefault d k2 w) k = some v := by
  unfold withDefault
  by_cases hk : hasKey d k2 = true
  · rw [if_pos hk]
    exact h
  · rw [if_neg hk]
    have hn : dictGet d k2 = none := by
      cases hg : dictGet d k2 with
      | none => rfl
      | some w0 => exact absurd (by simp [hasKey, hg]) hk
    exact dictGet_dictSet_preserve h hn w

lemma dictGet_withDefault_self {d : List (String × MValue)} {k : String}
    (hn : dictGet d k = none) (w : MValue) :
    dictGet (withDefault d k w) k = some w := by
  unfold withDefault
  rw [if_neg (by simp [hasKey, hn]), dictGet_dictSet_self]

lemma dictGet_withDefault_other {d : List (String × MValue)}
    {k2 k : String} (hne : k2 ≠ k) (w : MValue) :
    dictGet (withDefault d k2 w) k = dictGet d k := by
  unfold withDefault
  by_cases hk : hasKey d k2 = true
  · rw [if_pos hk]
  · rw [if_neg hk, dictGet_dictSet_ne _ hne]

/-- C10: when metadata enrichment succeeds, the stored metadata agrees
with the caller metadata m on every key m supplies (caller values
override the injected client/industry/language/processing_date
defaults), and the study_type (first-match keyword detection over
document_name, falling back to general_research), year (current year)
and confidence_score (1.0) defaults are filled in exactly when those
keys are absent from m. -/
theorem enrich_metadata_spec (m : List (String × MValue)) (t : String)
    (y : Int) (res : List (String × MValue))
    (hnd : (m.map Prod.fst).Nodup)
    (hok : enrich_metadata m t y = .ok res) :
    (∀ k v, dictGet m k = some v → dictGet res k = some v)
    ∧ (dictGet m "study_type" = none →
        dictGet res "study_type" =
          some (MValue.vStr (detect_study_type (docNameOf m))))
    ∧ (dictGet m "year" = none →
        dictGet res "year" = some (MValue.vInt y))
    ∧ (dictGet m "confidence_score" = none →
        dictGet res "confidence_score" = some (MValue.vFloat 1))
    ∧ (∀ name : String,
        (∀ e ∈ study_types, ∀ kw ∈ e.2,
          containsSub (pyLower name) kw = false) →
        detect_study_type name = "general_research") := by
  simp only [enrich_metadata] at hok
  rcases hw : withStudyType m (dictUpdate (baseMeta t) m) with _ | E1 <;>
    rw [hw] at hok
  · exact Except.noConfusion hok
  injection hok with hres
  subst hres
  have hE1 : (E1 = dictUpdate (baseMeta t) m ∧
        hasKey (dictUpdate (baseMeta t) m) "study_type" = true) ∨
      (E1 = dictSet (dictUpdate (baseMeta t) m) "study_type"
          (MValue.vStr (detect_study_type (docNameOf m))) ∧
        dictGet (dictUpdate (baseMeta t) m) "study_type" = none) := by
    unfold withStudyType at hw
    by_cases hst : hasKey (dictUpdate (baseMeta t) m) "study_type" = true
    · rw [if_pos hst] at hw
      injection hw with h2
      exact Or.inl ⟨h2.symm, hst⟩
    · rw [if_neg hst] at hw
      have hn : dictGet (dictUpdate (baseMeta t) m) "study_type" = none := by
        cases hg : dictGet (dictUpdate (baseMeta t) m) "study_type" with
        | none => rfl
        | some w0 => exact absurd (by simp [hasKey, hg]) hst
      rcases hdn : dictGet m "document_name" with _ | dv <;> rw [hdn] at hw
      · injection hw with h2
        refine Or.inr ⟨?_, hn⟩
        rw [← h2]
        simp [docNameOf, hdn]
      · cases dv with
        | vStr s2 =>
          injection hw with h2
          refine Or.inr ⟨?_, hn⟩
          rw [← h2]
          simp [docNameOf, hdn]
        | vInt n => exact Option.noConfusion hw
        | vFloat q2 => exact Option.noConfusion hw
  have hA : ∀ k v, dictGet (dictUpdate (baseMeta t) m) k = some v →
      dictGet E1 k = some v := by
    intro k v hkv
    rcases hE1 with ⟨rfl, -⟩ | ⟨rfl, hn⟩
    · exact hkv
    · exact dictGet_dictSet_preserve hkv hn _
  have hC : ∀ k, k ≠ "study_type" →
      dictGet E1 k = dictGet (dictUpdate (baseMeta t) m) k := by
    intro k hk
    rcases hE1 with ⟨rfl, -⟩ | ⟨rfl, -⟩
    · rfl
    · exact dictGet_dictSet_ne _ (Ne.symm hk) _
  refine ⟨?_, ?_, ?_, ?_, ?_⟩
  · intro k v hkv
    have h0 : dictGet (dictUpdate (baseMeta t) m) k = some v :=
      dictGet_dictUpdate_of_get hnd hkv _
    exact dictGet_withDefault_preserve
      (dictGet_withDefault_preserve (hA k v h0) _ _) _ _
  · intro hstm
    have h0 : dictGet (dictUpdate (baseMeta t) m) "study_type" = none := by
      rw [dictGet_dictUpdate_of_none hstm]
      rfl
    rcases hE1 with ⟨rfl, hst⟩ | ⟨rfl, -⟩
    · rw [hasKey, h0] at hst
      exact Bool.noConfusion hst
    · exact dictGet_withDefault_preserve
        (dictGet_withDefault_preserve (dictGet_dictSet_self _ _ _) _ _) _ _
  · intro hym
    have h0 : dictGet (dictUpdate (baseMeta t) m) "year" = none := by
      rw [dictGet_dictUpdate_of_none hym]
      rfl
    have h1 : dictGet E1 "year" = none := by
      rw [hC "year" (by decide)]
      exact h0
    exact dictGet_withDefault_preserve
      (dictGet_withDefault_self h1 _) _ _
  · intro hcm
    have h0 : dictGet (dictUpdate (baseMeta t) m) "confidence_score"
        = none := by
      rw [dictGet_dictUpdate_of_none hcm]
      rfl
    have h1 : dictGet E1 "confidence_score" = none := by
      rw [hC "confidence_score" (by decide)]
      exact h0
    have h2 : dictGet (withDefault E1 "year" (MValue.vInt y))
        "confidence_score" = none := by
      rw [dictGet_withDefault_other (by decide) _]
      exact h1
    exact dictGet_withDefault_self h2 _
  · intro name hkw
    have hfind : study_types.find?
        (fun e => e.2.any (fun kw => containsSub (pyLower name) kw))
        = none := by
      rw [List.find?_eq_none]
      intro e he hany
      rcases List.any_eq_true.mp hany with ⟨kw, hkwm, hc⟩
      rw [hkw e he kw hkwm] at hc
      exact Bool.noConfusion hc
    simp only [detect_study_type, hfind]

/-- Witness for C10 at the caller metadata [("year", 2023)]: the caller
year survives, study_type and confidence_score defaults are filled in. -/
theorem enrich_metadata_spec_witness :
    dictGet resW "year" = some (MValue.vInt 2023)
    ∧ dictGet resW "study_type" =
        some (MValue.vStr (detect_study_type (docNameOf mW)))
    ∧ dictGet resW "confidence_score" = some (MValue.vFloat 1) := by
  have h := enrich_metadata_spec mW "t" 2024 resW (by decide) rfl
  exact ⟨h.1 "year" (MValue.vInt 2023) rfl, h.2.1 rfl, h.2.2.2.1 rfl⟩

/-- C5: a caller-supplied rag_percentage override outside
[min_rag_percentage, max_rag_percentage] is rejected with a raised
InvalidConfiguration error — the value is not clamped and, the error
being raised before any mutation, the configuration is unchanged; an
in-range override is accepted as the effective RAG percentage and the
system prompt is reformatted with that percentage and with
creativity_percentage = 100 - rag_percentage, no other field changing. -/
theorem update_rag_mode_config_spec (cfg : RagModeDict) (v : Int) :
    (¬ (cfg.min_rag_percentage ≤ v ∧ v ≤ cfg.max_rag_percentage) →
      update_rag_mode_config cfg v =
        .error (.invalidConfiguration cfg.min_rag_percentage
          cfg.max_rag_percentage))
    ∧ (cfg.min_rag_percentage ≤ v → v ≤ cfg.max_rag_percentage →
      update_rag_mode_config cfg v =
        .ok { cfg with system_prompt :=
          (((cfg.system_prompt.replace "{rag_percentage}"
              (toString v)).replace "{creativity_percentage}"
              (toString (100 - v))).replace "{llm_percentage}"
            (toString (100 - v))) }) := by
  constructor
  · intro h
    simp [update_rag_mode_config, h]
  · intro h1 h2
    simp [update_rag_mode_config, h1, h2, formatPercentages]

/-- Witness for C5 at the scenario of the spec: bounds [30, 80], the
override 90 fails with InvalidConfiguration and the override 50 succeeds
with creativity_percentage = 100 - 50 = 50. -/
theorem update_rag_mode_config_spec_witness :
    update_rag_mode_config ⟨60, 30, 80, "p"⟩ 90 =
      .error (.invalidConfiguration 30 80)
    ∧ update_rag_mode_config ⟨60, 30, 80, "p"⟩ 50 =
        .ok { (⟨60, 30, 80, "p"⟩ : RagModeDict) with system_prompt :=
          (((("p" : String).replace "{rag_percentage}"
              (toString (50 : Int))).replace "{creativity_percentage}"
              (toString ((100 : Int) - 50))).replace "{llm_percentage}"
            (toString ((100 : Int) - 50))) } :=
  ⟨(update_rag_mode_config_spec ⟨60, 30, 80, "p"⟩ 90).1 (by decide),
   (update_rag_mode_config_spec ⟨60, 30, 80, "p"⟩ 50).2 (by decide)
     (by decide)⟩
